import Mathlib

/-!
Shallow embedding of the halo2 hello-world quadratic circuit.

The repository defines two gate chips (Add, Mul) over one shared advice
column, and a composite circuit proving knowledge of a private witness
`x` for public instance values `a, b, c`.  We model synthesis as explicit
state passing over a trace: advice-cell assignments, copy constraints,
selector enablements, and instance bindings.  Regions are identified by
the order in which `assign_region` is called (the floor planner places
each region in a fresh window), and cells are addressed region-relatively
as in the source.  halo2's `Value<F>` (a possibly-unknown field value)
is modelled as `Option F`.
-/

namespace Halo2Quad

/-- A table cell in the single shared advice column: the index of the
region that assigned it and the row offset inside that region. -/
structure Cell where
  region : Nat
  row : Nat
deriving DecidableEq

/-- `Number<F>` from `src/lib.rs`: a wire wrapping an assigned cell
together with the (possibly unknown) value placed there. -/
structure Number (F : Type) where
  cell : Cell
  value : Option F
deriving DecidableEq

/-- halo2 `Value` addition (`a.0.value().copied() + b.0.value().copied()`
in `add/lib.rs`): known + known yields the known sum, anything else is
unknown. -/
def vAdd {F : Type} [Add F] : Option F → Option F → Option F
  | some p, some q => some (p + q)
  | _, _ => none

/-- halo2 `Value` multiplication (`mul/lib.rs` line 105): known * known
yields the known product, anything else is unknown. -/
def vMul {F : Type} [Mul F] : Option F → Option F → Option F
  | some p, some q => some (p * q)
  | _, _ => none

/-- The synthesis trace: everything the layouter accumulates while a
circuit is synthesized.  `nextRegion` is the index the next
`assign_region` call will receive. -/
structure SynState (F : Type) where
  nextRegion : Nat
  /-- Advice-cell assignments, in chronological order. -/
  assignments : List (Cell × Option F)
  /-- Copy (equality) constraints `copy_advice` created: (new cell, source cell). -/
  copies : List (Cell × Cell)
  /-- Cells on which the add selector `s_add` was enabled. -/
  sAdd : List Cell
  /-- Cells on which the mul selector `s_mul` was enabled. -/
  sMul : List Cell
  /-- Instance bindings: (advice cell, instance row) pairs asserting the
  cell equals the externally supplied instance value at that row. -/
  instanceBindings : List (Cell × Nat)
deriving DecidableEq

/-- The empty trace a fresh layouter starts from. -/
def initState (F : Type) : SynState F :=
  { nextRegion := 0
    assignments := []
    copies := []
    sAdd := []
    sMul := []
    instanceBindings := [] }

/-- The polynomial identity registered by `AddChip::configure`'s
`create_gate` call: `s_add * (lhs + rhs - out)`. -/
def addGate {F : Type} [Ring F] (sel lhs rhs out : F) : F :=
  sel * (lhs + rhs - out)

/-- The polynomial identity registered by `MulChip::configure`'s
`create_gate` call: `s_mul * (lhs * rhs - out)`. -/
def mulGate {F : Type} [Ring F] (sel lhs rhs out : F) : F :=
  sel * (lhs * rhs - out)

namespace AddChip

/-- `AddChip::add` (`src/add/lib.rs` lines 96-119): opens a 3-row region,
enables `s_add` on row 0, copies `a` into row 0 and `b` into row 1
(each `copy_advice` both assigns the value and records a copy
constraint), and assigns `a + b` (under `Value` semantics) on row 2,
returning the row-2 wire. -/
def add {F : Type} [Add F] (a b : Number F) (s : SynState F) :
    Number F × SynState F :=
  let r := s.nextRegion
  let out := vAdd a.value b.value
  (⟨⟨r, 2⟩, out⟩,
    { nextRegion := r + 1
      assignments := s.assignments ++
        [(⟨r, 0⟩, a.value), (⟨r, 1⟩, b.value), (⟨r, 2⟩, out)]
      copies := s.copies ++ [(⟨r, 0⟩, a.cell), (⟨r, 1⟩, b.cell)]
      sAdd := s.sAdd ++ [⟨r, 0⟩]
      sMul := s.sMul
      instanceBindings := s.instanceBindings })

end AddChip

namespace MulChip

/-- `MulChip::mul` (`src/mul/lib.rs` lines 90-112): same 3-row layout as
`AddChip::add` with its own selector `s_mul` and product value on row 2. -/
def mul {F : Type} [Mul F] (a b : Number F) (s : SynState F) :
    Number F × SynState F :=
  let r := s.nextRegion
  let out := vMul a.value b.value
  (⟨⟨r, 2⟩, out⟩,
    { nextRegion := r + 1
      assignments := s.assignments ++
        [(⟨r, 0⟩, a.value), (⟨r, 1⟩, b.value), (⟨r, 2⟩, out)]
      copies := s.copies ++ [(⟨r, 0⟩, a.cell), (⟨r, 1⟩, b.cell)]
      sAdd := s.sAdd
      sMul := s.sMul ++ [⟨r, 0⟩]
      instanceBindings := s.instanceBindings })

end MulChip

namespace SolutionChip

/-- `SolutionChip::load_private` (`src/lib.rs` lines 144-159): assigns an
arbitrary (possibly unknown) value into row 0 of a fresh single-row
region, with no constraint attached. -/
def load_private {F : Type} (value : Option F) (s : SynState F) :
    Number F × SynState F :=
  let r := s.nextRegion
  (⟨⟨r, 0⟩, value⟩,
    { s with
      nextRegion := r + 1
      assignments := s.assignments ++ [(⟨r, 0⟩, value)] })

/-- `SolutionChip::load_constants` (`src/lib.rs` lines 161-183): one
region in which `assign_advice_from_instance` moves instance rows
0, 1, 2 into advice rows 0, 1, 2, each recording an instance binding;
returns the three wires in order (a, b, c).  `inst i` is the (possibly
still unknown) value of the instance column at row `i`. -/
def load_constants {F : Type} (inst : Nat → Option F) (s : SynState F) :
    (Number F × Number F × Number F) × SynState F :=
  let r := s.nextRegion
  ((⟨⟨r, 0⟩, inst 0⟩, ⟨⟨r, 1⟩, inst 1⟩, ⟨⟨r, 2⟩, inst 2⟩),
    { s with
      nextRegion := r + 1
      assignments := s.assignments ++
        [(⟨r, 0⟩, inst 0), (⟨r, 1⟩, inst 1), (⟨r, 2⟩, inst 2)]
      instanceBindings := s.instanceBindings ++
        [(⟨r, 0⟩, 0), (⟨r, 1⟩, 1), (⟨r, 2⟩, 2)] })

/-- `SolutionChip::expose_public` (`src/lib.rs` lines 185-194):
`constrain_instance` asserts the wire's cell equals the instance
column's value at `row`. -/
def expose_public {F : Type} (num : Number F) (row : Nat) (s : SynState F) :
    SynState F :=
  { s with instanceBindings := s.instanceBindings ++ [(num.cell, row)] }

/-- `SolutionChip::solve_quadratic` (`src/lib.rs` lines 196-208):
`x2 = mul(x, x)`; `bx = mul(b, x)`; `ax2 = mul(a, x2)`; returns
`add(ax2, bx)`.  The parameter `c` is bound as `_c` in the source and
does not occur in the body. -/
def solve_quadratic {F : Type} [Add F] [Mul F]
    (a b _c x : Number F) (s : SynState F) : Number F × SynState F :=
  let p1 := MulChip.mul x x s
  let p2 := MulChip.mul b x p1.2
  let p3 := MulChip.mul a p1.1 p2.2
  AddChip.add p3.1 p2.1 p3.2

end SolutionChip

/-- `MyCircuit` (`src/lib.rs` lines 212-215): the full circuit, holding
the private witness `x` as a halo2 `Value` (possibly unknown). -/
structure MyCircuit (F : Type) where
  x : Option F
deriving DecidableEq

namespace MyCircuit

/-- `MyCircuit::without_witnesses` (`src/lib.rs` lines 221-223): returns
`Self::default()`; the derived `Default` gives `x = Value::unknown()`. -/
def without_witnesses {F : Type} (_c : MyCircuit F) : MyCircuit F :=
  ⟨none⟩

/-- `MyCircuit::synthesize` (`src/lib.rs` lines 232-245): load the
private `x`, load the constants (a, b, c) from the instance column,
run `solve_quadratic`, and expose the resulting wire at instance
row 2.  `inst` supplies the instance column's values as seen during
synthesis (known when proving, unknown during keygen). -/
def synthesize {F : Type} [Add F] [Mul F] (c : MyCircuit F)
    (inst : Nat → Option F) (s : SynState F) : SynState F :=
  let px := SolutionChip.load_private c.x s
  let pabc := SolutionChip.load_constants inst px.2
  let psol := SolutionChip.solve_quadratic pabc.1.1 pabc.1.2.1 pabc.1.2.2
    px.1 pabc.2
  SolutionChip.expose_public psol.1 2 psol.2

end MyCircuit

/-- Look a cell up in the assignment trace: `none` when the cell was
never assigned, `some v` when it was assigned the (possibly unknown)
value `v`.  Every region is fresh, so a cell is assigned at most once. -/
def lookupCell {F : Type} : List (Cell × Option F) → Cell → Option (Option F)
  | [], _ => none
  | p :: rest, c => if p.1 = c then some p.2 else lookupCell rest c

/-- One gate check of the MockProver: at a selector-enabled cell the gate
polynomial, evaluated with selector 1 on the advice values at rotations
0, 1, 2, must vanish; all three cells must be assigned known values. -/
def gateRowOk {F : Type} [Ring F] [DecidableEq F]
    (asn : List (Cell × Option F)) (gate : F → F → F → F → F)
    (c : Cell) : Bool :=
  match lookupCell asn c, lookupCell asn ⟨c.region, c.row + 1⟩,
      lookupCell asn ⟨c.region, c.row + 2⟩ with
  | some (some p), some (some q), some (some o) => decide (gate 1 p q o = 0)
  | _, _, _ => false

/-- One copy-constraint check: both cells assigned, with equal values. -/
def copyOk {F : Type} [DecidableEq F]
    (asn : List (Cell × Option F)) (pc : Cell × Cell) : Bool :=
  match lookupCell asn pc.1, lookupCell asn pc.2 with
  | some v, some w => decide (v = w)
  | _, _ => false

/-- One instance-binding check: the advice cell is assigned a known value
equal to the public instance vector's entry at the bound row. -/
def instBindingOk {F : Type} [DecidableEq F]
    (asn : List (Cell × Option F)) (instL : List F)
    (bi : Cell × Nat) : Bool :=
  match lookupCell asn bi.1, instL.get? bi.2 with
  | some (some v), some w => decide (v = w)
  | _, _ => false

/-- MockProver verification of a synthesis trace against a public
instance vector: every enabled add gate and mul gate vanishes, every
copy constraint is met, and every instance binding matches. -/
def verify {F : Type} [Ring F] [DecidableEq F]
    (s : SynState F) (instL : List F) : Bool :=
  s.sAdd.all (gateRowOk s.assignments addGate) &&
  s.sMul.all (gateRowOk s.assignments mulGate) &&
  s.copies.all (copyOk s.assignments) &&
  s.instanceBindings.all (instBindingOk s.assignments instL)

/-- `MockProver::run` followed by `verify` as invoked in the tests:
synthesize the circuit with the instance column populated from `instL`,
then check the resulting trace against `instL`. -/
def mockVerify {F : Type} [Ring F] [DecidableEq F]
    (c : MyCircuit F) (instL : List F) : Bool :=
  verify (c.synthesize (fun i => instL.get? i) (initState F)) instL

theorem vAdd_none_left {F : Type} [Add F] (v : Option F) :
    vAdd none v = none := by
  cases v <;> rfl

theorem vAdd_none_right {F : Type} [Add F] (v : Option F) :
    vAdd v none = none := by
  cases v <;> rfl

theorem vMul_none_left {F : Type} [Mul F] (v : Option F) :
    vMul none v = none := by
  cases v <;> rfl

theorem vMul_none_right {F : Type} [Mul F] (v : Option F) :
    vMul v none = none := by
  cases v <;> rfl

/-- C2: `AddChip::add` opens a 3-row region in the advice column: row 0 a
copy of `a` (value plus copy constraint), row 1 a copy of `b`, row 2 the
fresh value `a + b`; the add selector is enabled only on row 0.  For
known inputs `p, q` the output cell holds `p + q` and the gate identity
`selector * (row0 + row1 - row2)` vanishes on the enabled row. -/
theorem add_chip_layout_and_soundness {F : Type} [Ring F]
    (a b : Number F) (s : SynState F) :
    AddChip.add a b s =
      (⟨⟨s.nextRegion, 2⟩, vAdd a.value b.value⟩,
        { nextRegion := s.nextRegion + 1
          assignments := s.assignments ++
            [(⟨s.nextRegion, 0⟩, a.value), (⟨s.nextRegion, 1⟩, b.value),
             (⟨s.nextRegion, 2⟩, vAdd a.value b.value)]
          copies := s.copies ++
            [(⟨s.nextRegion, 0⟩, a.cell), (⟨s.nextRegion, 1⟩, b.cell)]
          sAdd := s.sAdd ++ [⟨s.nextRegion, 0⟩]
          sMul := s.sMul
          instanceBindings := s.instanceBindings }) ∧
    ∀ p q : F, a.value = some p → b.value = some q →
      (AddChip.add a b s).1.value = some (p + q) ∧
      addGate (1 : F) p q (p + q) = 0 := by
  refine ⟨rfl, fun p q hp hq => ⟨?_, ?_⟩⟩
  · simp [AddChip.add, vAdd, hp, hq]
  · simp [addGate]

/-- Witness for C2 at concrete inputs over `ZMod 5`. -/
theorem add_chip_soundness_witness :
    (AddChip.add (F := ZMod 5) ⟨⟨0, 0⟩, some 2⟩ ⟨⟨0, 1⟩, some 3⟩
        (initState (ZMod 5))).1.value = some (2 + 3) ∧
    addGate (1 : ZMod 5) 2 3 (2 + 3) = 0 :=
  (add_chip_layout_and_soundness ⟨⟨0, 0⟩, some 2⟩ ⟨⟨0, 1⟩, some 3⟩
    (initState (ZMod 5))).2 2 3 rfl rfl

/-- C3: `MulChip::mul` lays out the same 3-row structure as
`AddChip::add` with its own selector enabled only on row 0 and gate
identity `selector * (row0 * row1 - row2)`; for known inputs `p, q` the
output cell holds `p * q` and the identity vanishes on the enabled row. -/
theorem mul_chip_layout_and_soundness {F : Type} [Ring F]
    (a b : Number F) (s : SynState F) :
    MulChip.mul a b s =
      (⟨⟨s.nextRegion, 2⟩, vMul a.value b.value⟩,
        { nextRegion := s.nextRegion + 1
          assignments := s.assignments ++
            [(⟨s.nextRegion, 0⟩, a.value), (⟨s.nextRegion, 1⟩, b.value),
             (⟨s.nextRegion, 2⟩, vMul a.value b.value)]
          copies := s.copies ++
            [(⟨s.nextRegion, 0⟩, a.cell), (⟨s.nextRegion, 1⟩, b.cell)]
          sAdd := s.sAdd
          sMul := s.sMul ++ [⟨s.nextRegion, 0⟩]
          instanceBindings := s.instanceBindings }) ∧
    ∀ p q : F, a.value = some p → b.value = some q →
      (MulChip.mul a b s).1.value = some (p * q) ∧
      mulGate (1 : F) p q (p * q) = 0 := by
  refine ⟨rfl, fun p q hp hq => ⟨?_, ?_⟩⟩
  · simp [MulChip.mul, vMul, hp, hq]
  · simp [mulGate]

/-- Witness for C3 at concrete inputs over `ZMod 5`. -/
theorem mul_chip_soundness_witness :
    (MulChip.mul (F := ZMod 5) ⟨⟨0, 0⟩, some 2⟩ ⟨⟨0, 1⟩, some 3⟩
        (initState (ZMod 5))).1.value = some (2 * 3) ∧
    mulGate (1 : ZMod 5) 2 3 (2 * 3) = 0 :=
  (mul_chip_layout_and_soundness ⟨⟨0, 0⟩, some 2⟩ ⟨⟨0, 1⟩, some 3⟩
    (initState (ZMod 5))).2 2 3 rfl rfl

/-- C4: on any row where a chip's selector value is zero, that chip's
gate expression (`selector * (lhs + rhs - out)` for Add,
`selector * (lhs * rhs - out)` for Mul) evaluates to zero for arbitrary
advice values, so disabled rows impose no constraint. -/
theorem disabled_row_neutrality {F : Type} [Ring F] (lhs rhs out : F) :
    addGate 0 lhs rhs out = 0 ∧ mulGate 0 lhs rhs out = 0 := by
  constructor <;> simp [addGate, mulGate]

/-- C5: if either input of `AddChip::add` or `MulChip::mul` carries an
unknown value, the output wire's value is unknown; no placeholder is
fabricated and the (total) region assignment still completes. -/
theorem unknown_propagation {F : Type} [Ring F] (a b : Number F)
    (s : SynState F) (h : a.value = none ∨ b.value = none) :
    (AddChip.add a b s).1.value = none ∧
    (MulChip.mul a b s).1.value = none := by
  rcases h with h | h <;>
    simp [AddChip.add, MulChip.mul, h, vAdd_none_left, vAdd_none_right,
      vMul_none_left, vMul_none_right]

/-- Witness for C5: an unknown left input over `ZMod 5`. -/
theorem unknown_propagation_witness :
    (AddChip.add (F := ZMod 5) ⟨⟨0, 0⟩, none⟩ ⟨⟨0, 1⟩, some 4⟩
        (initState (ZMod 5))).1.value = none ∧
    (MulChip.mul (F := ZMod 5) ⟨⟨0, 0⟩, none⟩ ⟨⟨0, 1⟩, some 4⟩
        (initState (ZMod 5))).1.value = none :=
  unknown_propagation ⟨⟨0, 0⟩, none⟩ ⟨⟨0, 1⟩, some 4⟩ (initState (ZMod 5))
    (Or.inl rfl)

/-- C1: `solve_quadratic` multiplies `x` by itself, `b` by `x`, `a` by
`x^2`, and returns the sum of the last two; the parameter `c` is never
used, so the result (and the whole trace) is unchanged when `c` is
replaced by any other wire, and for known inputs the returned wire's
value is `a * x^2 + b * x` (not `a * x^2 + b * x - c`). -/
theorem solve_quadratic_value_and_c_unused {F : Type} [CommRing F]
    (a b c c' x : Number F) (s : SynState F) (p q v : F)
    (ha : a.value = some p) (hb : b.value = some q) (hx : x.value = some v) :
    SolutionChip.solve_quadratic a b c x s =
      SolutionChip.solve_quadratic a b c' x s ∧
    (SolutionChip.solve_quadratic a b c x s).1.value =
      some (p * v ^ 2 + q * v) := by
  refine ⟨rfl, ?_⟩
  simp [SolutionChip.solve_quadratic, MulChip.mul, AddChip.add, vMul, vAdd,
    ha, hb, hx]
  ring

/-- Witness for C1 over `ZMod 7`: a = 3, b = 1, x = 2, with two distinct
wires in the `c` position. -/
theorem solve_quadratic_value_witness :
    SolutionChip.solve_quadratic (F := ZMod 7) ⟨⟨0, 0⟩, some 3⟩
        ⟨⟨0, 1⟩, some 1⟩ ⟨⟨0, 2⟩, some 0⟩ ⟨⟨1, 0⟩, some 2⟩
        (initState (ZMod 7)) =
      SolutionChip.solve_quadratic ⟨⟨0, 0⟩, some 3⟩ ⟨⟨0, 1⟩, some 1⟩
        ⟨⟨0, 2⟩, some 6⟩ ⟨⟨1, 0⟩, some 2⟩ (initState (ZMod 7)) ∧
    (SolutionChip.solve_quadratic (F := ZMod 7) ⟨⟨0, 0⟩, some 3⟩
        ⟨⟨0, 1⟩, some 1⟩ ⟨⟨0, 2⟩, some 0⟩ ⟨⟨1, 0⟩, some 2⟩
        (initState (ZMod 7))).1.value = some (3 * 2 ^ 2 + 1 * 2) :=
  solve_quadratic_value_and_c_unused ⟨⟨0, 0⟩, some 3⟩ ⟨⟨0, 1⟩, some 1⟩
    ⟨⟨0, 2⟩, some 0⟩ ⟨⟨0, 2⟩, some 6⟩ ⟨⟨1, 0⟩, some 2⟩ (initState (ZMod 7))
    3 1 2 rfl rfl rfl

/-- C6: `load_constants` assigns instance rows 0, 1, 2 into three advice
cells of one fresh region, records one instance binding per cell, and
returns the three bound wires in the fixed order (a, b, c); moreover
each returned wire carries the corresponding instance value and its
cell is exactly the one bound to its instance row. -/
theorem load_constants_spec {F : Type} (inst : Nat → Option F)
    (s : SynState F) :
    SolutionChip.load_constants inst s =
      ((⟨⟨s.nextRegion, 0⟩, inst 0⟩, ⟨⟨s.nextRegion, 1⟩, inst 1⟩,
        ⟨⟨s.nextRegion, 2⟩, inst 2⟩),
        { s with
          nextRegion := s.nextRegion + 1
          assignments := s.assignments ++
            [(⟨s.nextRegion, 0⟩, inst 0), (⟨s.nextRegion, 1⟩, inst 1),
             (⟨s.nextRegion, 2⟩, inst 2)]
          instanceBindings := s.instanceBindings ++
            [(⟨s.nextRegion, 0⟩, 0), (⟨s.nextRegion, 1⟩, 1),
             (⟨s.nextRegion, 2⟩, 2)] }) ∧
    (SolutionChip.load_constants inst s).1.1.value = inst 0 ∧
    (SolutionChip.load_constants inst s).1.2.1.value = inst 1 ∧
    (SolutionChip.load_constants inst s).1.2.2.value = inst 2 ∧
    (SolutionChip.load_constants inst s).2.instanceBindings =
      s.instanceBindings ++
        [((SolutionChip.load_constants inst s).1.1.cell, 0),
         ((SolutionChip.load_constants inst s).1.2.1.cell, 1),
         ((SolutionChip.load_constants inst s).1.2.2.cell, 2)] :=
  ⟨rfl, rfl, rfl, rfl, rfl⟩

/-- C7: from a fresh layouter, `MyCircuit::synthesize` runs exactly
`load_private x` (region 0), `load_constants` (region 1),
`solve_quadratic` (regions 2-5: mul x2, mul bx, mul ax2, add), and
`expose_public` of the final wire at instance row 2, producing this
complete trace and nothing else. -/
theorem synthesize_trace {F : Type} [CommRing F] (c : MyCircuit F)
    (inst : Nat → Option F) :
    c.synthesize inst (initState F) =
      { nextRegion := 6
        assignments := [(⟨0, 0⟩, c.x),
          (⟨1, 0⟩, inst 0), (⟨1, 1⟩, inst 1), (⟨1, 2⟩, inst 2),
          (⟨2, 0⟩, c.x), (⟨2, 1⟩, c.x), (⟨2, 2⟩, vMul c.x c.x),
          (⟨3, 0⟩, inst 1), (⟨3, 1⟩, c.x), (⟨3, 2⟩, vMul (inst 1) c.x),
          (⟨4, 0⟩, inst 0), (⟨4, 1⟩, vMul c.x c.x),
          (⟨4, 2⟩, vMul (inst 0) (vMul c.x c.x)),
          (⟨5, 0⟩, vMul (inst 0) (vMul c.x c.x)),
          (⟨5, 1⟩, vMul (inst 1) c.x),
          (⟨5, 2⟩, vAdd (vMul (inst 0) (vMul c.x c.x)) (vMul (inst 1) c.x))]
        copies := [(⟨2, 0⟩, ⟨0, 0⟩), (⟨2, 1⟩, ⟨0, 0⟩),
          (⟨3, 0⟩, ⟨1, 1⟩), (⟨3, 1⟩, ⟨0, 0⟩),
          (⟨4, 0⟩, ⟨1, 0⟩), (⟨4, 1⟩, ⟨2, 2⟩),
          (⟨5, 0⟩, ⟨4, 2⟩), (⟨5, 1⟩, ⟨3, 2⟩)]
        sAdd := [⟨5, 0⟩]
        sMul := [⟨2, 0⟩, ⟨3, 0⟩, ⟨4, 0⟩]
        instanceBindings := [(⟨1, 0⟩, 0), (⟨1, 1⟩, 1), (⟨1, 2⟩, 2),
          (⟨5, 2⟩, 2)] } := rfl

/-- The trace synthesized from a fresh layouter with a known witness `x`
and the instance column populated from `[a, b, c]`, written out with all
`Value` arithmetic resolved. -/
theorem synth_abc_trace {F : Type} [CommRing F] (a b c x : F) :
    (⟨some x⟩ : MyCircuit F).synthesize (fun i => [a, b, c].get? i)
        (initState F) =
      { nextRegion := 6
        assignments := [(⟨0, 0⟩, some x),
          (⟨1, 0⟩, some a), (⟨1, 1⟩, some b), (⟨1, 2⟩, some c),
          (⟨2, 0⟩, some x), (⟨2, 1⟩, some x), (⟨2, 2⟩, some (x * x)),
          (⟨3, 0⟩, some b), (⟨3, 1⟩, some x), (⟨3, 2⟩, some (b * x)),
          (⟨4, 0⟩, some a), (⟨4, 1⟩, some (x * x)),
          (⟨4, 2⟩, some (a * (x * x))),
          (⟨5, 0⟩, some (a * (x * x))), (⟨5, 1⟩, some (b * x)),
          (⟨5, 2⟩, some (a * (x * x) + b * x))]
        copies := [(⟨2, 0⟩, ⟨0, 0⟩), (⟨2, 1⟩, ⟨0, 0⟩),
          (⟨3, 0⟩, ⟨1, 1⟩), (⟨3, 1⟩, ⟨0, 0⟩),
          (⟨4, 0⟩, ⟨1, 0⟩), (⟨4, 1⟩, ⟨2, 2⟩),
          (⟨5, 0⟩, ⟨4, 2⟩), (⟨5, 1⟩, ⟨3, 2⟩)]
        sAdd := [⟨5, 0⟩]
        sMul := [⟨2, 0⟩, ⟨3, 0⟩, ⟨4, 0⟩]
        instanceBindings := [(⟨1, 0⟩, 0), (⟨1, 1⟩, 1), (⟨1, 2⟩, 2),
          (⟨5, 2⟩, 2)] } := rfl

/-- MockProver verification of the circuit with known witness `x` and
instance vector `[a, b, c]` succeeds exactly when the computed value
`a * (x * x) + b * x`, exposed at instance row 2, equals `c`. -/
theorem mockVerify_known_iff {F : Type} [CommRing F] [DecidableEq F]
    (a b c x : F) :
    mockVerify (⟨some x⟩ : MyCircuit F) [a, b, c] = true ↔
      a * (x * x) + b * x = c := by
  simp only [mockVerify, synth_abc_trace]
  simp [verify, gateRowOk, copyOk, instBindingOk, lookupCell, addGate,
    mulGate, List.get?, decide_eq_true_eq]

/-- C8: for a known witness `x` and public instance `[a, b, c]`,
verification succeeds iff `c` equals the computed value `a*x^2 + b*x`;
in particular instance `[1, 2, 3]` with `x = 1` verifies, and instance
`[1, 1, 3]` with `x = 1` fails. -/
theorem instance_binding_roundtrip (F : Type) [Field F] [DecidableEq F]
    (a b c x : F) :
    (mockVerify (⟨some x⟩ : MyCircuit F) [a, b, c] = true ↔
      a * x ^ 2 + b * x = c) ∧
    mockVerify (⟨some 1⟩ : MyCircuit F) [1, 2, 3] = true ∧
    mockVerify (⟨some 1⟩ : MyCircuit F) [1, 1, 3] = false := by
  refine ⟨?_, ?_, ?_⟩
  · have h := mockVerify_known_iff (F := F) a b c x
    rw [show a * (x * x) + b * x = a * x ^ 2 + b * x from by ring] at h
    exact h
  · exact (mockVerify_known_iff (F := F) 1 2 3 1).mpr (by norm_num)
  · have h := mockVerify_known_iff (F := F) 1 1 3 1
    cases hb : mockVerify (⟨some 1⟩ : MyCircuit F) [1, 1, 3]
    · rfl
    · have he := h.mp hb
      have : (1 : F) = 0 := by linear_combination -he
      exact absurd this one_ne_zero

/-- C9: synthesizing twice with identical circuit, instance values and
starting layouter state yields identical assigned tables and identical
constraint sets (copy constraints, selector enablements, instance
bindings). -/
theorem synthesize_deterministic {F : Type} [CommRing F]
    (c₁ c₂ : MyCircuit F) (inst₁ inst₂ : Nat → Option F)
    (s₁ s₂ : SynState F) (hc : c₁ = c₂) (hi : inst₁ = inst₂)
    (hs : s₁ = s₂) :
    (c₁.synthesize inst₁ s₁).assignments =
      (c₂.synthesize inst₂ s₂).assignments ∧
    (c₁.synthesize inst₁ s₁).copies = (c₂.synthesize inst₂ s₂).copies ∧
    (c₁.synthesize inst₁ s₁).sAdd = (c₂.synthesize inst₂ s₂).sAdd ∧
    (c₁.synthesize inst₁ s₁).sMul = (c₂.synthesize inst₂ s₂).sMul ∧
    (c₁.synthesize inst₁ s₁).instanceBindings =
      (c₂.synthesize inst₂ s₂).instanceBindings := by
  subst hc; subst hi; subst hs
  exact ⟨rfl, rfl, rfl, rfl, rfl⟩

/-- Witness for C9: two runs at identical concrete inputs over
`ZMod 5`. -/
theorem synthesize_deterministic_witness :
    ((⟨some 2⟩ : MyCircuit (ZMod 5)).synthesize (fun _ => some 1)
        (initState (ZMod 5))).assignments =
      ((⟨some 2⟩ : MyCircuit (ZMod 5)).synthesize (fun _ => some 1)
        (initState (ZMod 5))).assignments ∧
    ((⟨some 2⟩ : MyCircuit (ZMod 5)).synthesize (fun _ => some 1)
        (initState (ZMod 5))).copies =
      ((⟨some 2⟩ : MyCircuit (ZMod 5)).synthesize (fun _ => some 1)
        (initState (ZMod 5))).copies ∧
    ((⟨some 2⟩ : MyCircuit (ZMod 5)).synthesize (fun _ => some 1)
        (initState (ZMod 5))).sAdd =
      ((⟨some 2⟩ : MyCircuit (ZMod 5)).synthesize (fun _ => some 1)
        (initState (ZMod 5))).sAdd ∧
    ((⟨some 2⟩ : MyCircuit (ZMod 5)).synthesize (fun _ => some 1)
        (initState (ZMod 5))).sMul =
      ((⟨some 2⟩ : MyCircuit (ZMod 5)).synthesize (fun _ => some 1)
        (initState (ZMod 5))).sMul ∧
    ((⟨some 2⟩ : MyCircuit (ZMod 5)).synthesize (fun _ => some 1)
        (initState (ZMod 5))).instanceBindings =
      ((⟨some 2⟩ : MyCircuit (ZMod 5)).synthesize (fun _ => some 1)
        (initState (ZMod 5))).instanceBindings :=
  synthesize_deterministic ⟨some 2⟩ ⟨some 2⟩ (fun _ => some 1)
    (fun _ => some 1) (initState (ZMod 5)) (initState (ZMod 5)) rfl rfl rfl

/-- C10: `without_witnesses` yields a circuit whose private `x` is
unknown, and synthesizing it with unknown instance values lays out the
same cells, copy constraints, selectors, and instance bindings as any
witnessed run, with all 16 assigned cell values unknown, rather than
failing. -/
theorem without_witnesses_keygen_layout {F : Type} [CommRing F]
    (c : MyCircuit F) (inst : Nat → Option F) :
    c.without_witnesses.x = none ∧
    (c.without_witnesses.synthesize (fun _ => none)
        (initState F)).assignments.map Prod.fst =
      (c.synthesize inst (initState F)).assignments.map Prod.fst ∧
    (c.without_witnesses.synthesize (fun _ => none)
        (initState F)).assignments.map Prod.snd =
      List.replicate 16 none ∧
    (c.without_witnesses.synthesize (fun _ => none) (initState F)).copies =
      (c.synthesize inst (initState F)).copies ∧
    (c.without_witnesses.synthesize (fun _ => none) (initState F)).sAdd =
      (c.synthesize inst (initState F)).sAdd ∧
    (c.without_witnesses.synthesize (fun _ => none) (initState F)).sMul =
      (c.synthesize inst (initState F)).sMul ∧
    (c.without_witnesses.synthesize (fun _ => none)
        (initState F)).instanceBindings =
      (c.synthesize inst (initState F)).instanceBindings :=
  ⟨rfl, rfl, rfl, rfl, rfl, rfl, rfl⟩

end Halo2Quad
